import Mathlib

/-!
NDS loader: header checksum and load-range resolution

A shallow embedding of `src/nds.cpp` (the IDA loader module for Nintendo DS
ROM images) and the properties its specification states about it.

Conventions of the embedding

* A file or buffer is a `List Byte`; `Byte` is `Fin 256` (`unsigned char`).
* `unsigned short` and `unsigned int` values are natural numbers below
  `2^16` and `2^32`; an operation that can leave the range carries an
  explicit `% 65536` or `% 4294967296`.
* The data model is LP64: `long` and `unsigned long` have 64 bits, as have
  the host's file offsets, so they hold every file length and the sum of two
  32-bit header members, and the conversions on lines 99, 177, 180, 192 and
  224 of `nds.cpp` keep their values.  A build whose `long` has 32 bits is
  outside the embedding.
* Multi-byte header members are read in little-endian order, the order of
  the hosts the loader runs on.
* `nds.h` is not part of the sources at hand.  What the code takes from it
  is a parameter of the embedding: the layout of `nds_hdr`, the table
  `crc16tab`, the table `memory`.
* Host calls (`set_processor_type`, `add_segm`, `file2base`, ...) are
  recorded, in order, in a call log; `loader_failure` and `qexit` end the
  run, as they do not return.
-/

namespace NdsLoader

/-! ## Machine types -/

/-- One octet of a file or of the header buffer (`unsigned char`). -/
abbrev Byte := Fin 256

/-- A 16-bit unsigned value (`unsigned short`). -/
abbrev U16 := Fin 65536

/-- A 32-bit unsigned value (`unsigned int`). -/
abbrev U32 := Fin 4294967296

/-! ## CalcCRC16 (nds.cpp, lines 80-87) -/

/-- Body of the loop of `CalcCRC16`:
`crc16 = (crc16 >> 8) ^ crc16tab[(crc16 ^ data) & 0xFF]`, the assignment
truncating to `unsigned short`. -/
def crcStep (crc16tab : List U16) (crc16 : Nat) (data : Byte) : Nat :=
  ((crc16 >>> 8) ^^^ (crc16tab.getD ((crc16 ^^^ data.val) &&& 0xFF) 0).val) % 65536

/-- The loop `for (int i = 0; i < 350; i++)` of `CalcCRC16`: `n` is the number
of iterations still to run, `i` the loop index, `crc16` the register.  The
byte read is `*((unsigned char *) ndshdr + i)`. -/
def CalcCRC16.loop (crc16tab : List U16) (ndshdr : List Byte) : Nat → Nat → Nat → Nat
  | 0, _, crc16 => crc16
  | n + 1, i, crc16 =>
    CalcCRC16.loop crc16tab ndshdr n (i + 1) (crcStep crc16tab crc16 (ndshdr.getD i 0))

/-- `unsigned short CalcCRC16(nds_hdr *ndshdr)`: the register starts at
`0xFFFF` and the loop runs for `i = 0, ..., 349`. -/
def CalcCRC16 (crc16tab : List U16) (ndshdr : List Byte) : Nat :=
  CalcCRC16.loop crc16tab ndshdr 350 0 0xFFFF

/-- The per-byte step in the words of the specification:
`register = (register >> 8) XOR table[(register XOR byte) & 0xFF]`. -/
def specStep (table : List U16) (register : Nat) (byte : Byte) : Nat :=
  (register >>> 8) ^^^ (table.getD ((register ^^^ byte.val) &&& 0xFF) 0).val

/-- The checksum in the words of the specification: the left fold of
`specStep` over bytes `0..349`, in order, from the register `0xFFFF`. -/
def specChecksum (table : List U16) (bytes : List Byte) : Nat :=
  (bytes.take 350).foldl (specStep table) 0xFFFF

/-- One bit-serial step of the reflected CRC-16 with polynomial `0xA001`. -/
def crcBit (c : Nat) : Nat :=
  if c % 2 = 1 then (c / 2) ^^^ 0xA001 else c / 2

/-- Entry `i` of the CRC-16 table of the reflected polynomial `0xA001`:
eight bit-serial steps applied to `i`. -/
def crcTableEntry (i : Nat) : Nat :=
  crcBit (crcBit (crcBit (crcBit (crcBit (crcBit (crcBit (crcBit i)))))))

/-- Modelled from the spec: the table `crc16tab` of `nds.h`, which is not
among the sources.  The specification fixes it as the standard 256-entry
CRC16 lookup table of the reflected polynomial, byte for byte the table of
ndstool. -/
def ndstool_crc16tab : List U16 := [
  0x0000, 0xC0C1, 0xC181, 0x0140, 0xC301, 0x03C0, 0x0280, 0xC241,
  0xC601, 0x06C0, 0x0780, 0xC741, 0x0500, 0xC5C1, 0xC481, 0x0440,
  0xCC01, 0x0CC0, 0x0D80, 0xCD41, 0x0F00, 0xCFC1, 0xCE81, 0x0E40,
  0x0A00, 0xCAC1, 0xCB81, 0x0B40, 0xC901, 0x09C0, 0x0880, 0xC841,
  0xD801, 0x18C0, 0x1980, 0xD941, 0x1B00, 0xDBC1, 0xDA81, 0x1A40,
  0x1E00, 0xDEC1, 0xDF81, 0x1F40, 0xDD01, 0x1DC0, 0x1C80, 0xDC41,
  0x1400, 0xD4C1, 0xD581, 0x1540, 0xD701, 0x17C0, 0x1680, 0xD641,
  0xD201, 0x12C0, 0x1380, 0xD341, 0x1100, 0xD1C1, 0xD081, 0x1040,
  0xF001, 0x30C0, 0x3180, 0xF141, 0x3300, 0xF3C1, 0xF281, 0x3240,
  0x3600, 0xF6C1, 0xF781, 0x3740, 0xF501, 0x35C0, 0x3480, 0xF441,
  0x3C00, 0xFCC1, 0xFD81, 0x3D40, 0xFF01, 0x3FC0, 0x3E80, 0xFE41,
  0xFA01, 0x3AC0, 0x3B80, 0xFB41, 0x3900, 0xF9C1, 0xF881, 0x3840,
  0x2800, 0xE8C1, 0xE981, 0x2940, 0xEB01, 0x2BC0, 0x2A80, 0xEA41,
  0xEE01, 0x2EC0, 0x2F80, 0xEF41, 0x2D00, 0xEDC1, 0xEC81, 0x2C40,
  0xE401, 0x24C0, 0x2580, 0xE541, 0x2700, 0xE7C1, 0xE681, 0x2640,
  0x2200, 0xE2C1, 0xE381, 0x2340, 0xE101, 0x21C0, 0x2080, 0xE041,
  0xA001, 0x60C0, 0x6180, 0xA141, 0x6300, 0xA3C1, 0xA281, 0x6240,
  0x6600, 0xA6C1, 0xA781, 0x6740, 0xA501, 0x65C0, 0x6480, 0xA441,
  0x6C00, 0xACC1, 0xAD81, 0x6D40, 0xAF01, 0x6FC0, 0x6E80, 0xAE41,
  0xAA01, 0x6AC0, 0x6B80, 0xAB41, 0x6900, 0xA9C1, 0xA881, 0x6840,
  0x7800, 0xB8C1, 0xB981, 0x7940, 0xBB01, 0x7BC0, 0x7A80, 0xBA41,
  0xBE01, 0x7EC0, 0x7F80, 0xBF41, 0x7D00, 0xBDC1, 0xBC81, 0x7C40,
  0xB401, 0x74C0, 0x7580, 0xB541, 0x7700, 0xB7C1, 0xB681, 0x7640,
  0x7200, 0xB2C1, 0xB381, 0x7340, 0xB101, 0x71C0, 0x7080, 0xB041,
  0x5000, 0x90C1, 0x9181, 0x5140, 0x9301, 0x53C0, 0x5280, 0x9241,
  0x9601, 0x56C0, 0x5780, 0x9741, 0x5500, 0x95C1, 0x9481, 0x5440,
  0x9C01, 0x5CC0, 0x5D80, 0x9D41, 0x5F00, 0x9FC1, 0x9E81, 0x5E40,
  0x5A00, 0x9AC1, 0x9B81, 0x5B40, 0x9901, 0x59C0, 0x5880, 0x9841,
  0x8801, 0x48C0, 0x4980, 0x8941, 0x4B00, 0x8BC1, 0x8A81, 0x4A40,
  0x4E00, 0x8EC1, 0x8F81, 0x4F40, 0x8D01, 0x4DC0, 0x4C80, 0x8C41,
  0x4400, 0x84C1, 0x8581, 0x4540, 0x8701, 0x47C0, 0x4680, 0x8641,
  0x8201, 0x42C0, 0x4380, 0x8341, 0x4100, 0x81C1, 0x8081, 0x4040]

/-! ## accept_file (nds.cpp, lines 95-128) -/

/-- The part of the declaration of `nds_hdr` (in `nds.h`, not among the
sources) that `accept_file` depends on: the size of the structure and the
offset of its `unsigned short headerCRC16` member.  The two bounds say that
the 350 bytes read by `CalcCRC16` and the member lie inside the structure. -/
structure nds_hdr_layout where
  /-- The value of `sizeof(nds_hdr)`. -/
  size : Nat
  /-- The value of `offsetof(nds_hdr, headerCRC16)`. -/
  headerCRC16 : Nat
  /-- The checksum window lies inside the structure. -/
  window_le : 350 ≤ size
  /-- The member `headerCRC16` lies inside the structure. -/
  field_le : headerCRC16 + 2 ≤ size

/-- The layout of the Nintendo DS cartridge header: 512 bytes, the header
checksum at offset `0x15E`, right after the 350 bytes it covers. -/
def cartridge_layout : nds_hdr_layout :=
  ⟨0x200, 0x15E, by decide, by decide⟩

/-- Value of the member `hdr.headerCRC16` of a header buffer: the 16-bit
little-endian number at the member's offset. -/
def headerCRC16 (L : nds_hdr_layout) (hdr : List Byte) : Nat :=
  (hdr.getD L.headerCRC16 0).val + 256 * (hdr.getD (L.headerCRC16 + 1) 0).val

/-- The host's input handle `linput_t`: the bytes of the file, and whether
the host's read primitive reports an error on it. -/
structure linput where
  /-- Content of the file. -/
  bytes : List Byte
  /-- Whether `qlread` fails on this input. -/
  read_error : Bool

/-- Host primitive `qlsize`: the length of the file. -/
def qlsize (li : linput) : Nat := li.bytes.length

/-- Host primitives `qlseek(li, pos, SEEK_SET)` followed by
`qlread(li, buf, size)`: the number of bytes read (`-1` on error) and the
bytes stored into the buffer. -/
def qlread (li : linput) (pos size : Nat) : Int × List Byte :=
  if li.read_error then (-1, [])
  else (((li.bytes.drop pos).take size).length, (li.bytes.drop pos).take size)

/-- The flag `ACCEPT_FIRST` of the host SDK (`loader.hpp`). -/
def ACCEPT_FIRST : Nat := 0x8000

/-- What `accept_file` hands back: its return value and, when it accepts,
the strings stored through `fileformatname` and `processor`. -/
structure Accepted where
  /-- The returned `int`. -/
  ret : Nat
  /-- The string stored into `*fileformatname`, if any. -/
  fileformatname : Option String
  /-- The string stored into `*processor`, if any. -/
  processor : Option String
deriving DecidableEq, Repr

/-- `int accept_file(qstring *fileformatname, qstring *processor, linput_t *li,
const char *filename)`. -/
def accept_file (L : nds_hdr_layout) (crc16tab : List U16) (li : linput) : Accepted :=
  let filelen := qlsize li
  -- quit, if file is smaller than size of NDS header
  if filelen < L.size then ⟨0, none, none⟩
  -- read whole NDS header
  else if (qlread li 0 L.size).1 ≠ (L.size : Int) then ⟨0, none, none⟩
  -- check validity of CRC16 value of header
  else if CalcCRC16 crc16tab (qlread li 0 L.size).2 ≠ headerCRC16 L (qlread li 0 L.size).2 then
    ⟨0, none, none⟩
  else ⟨1 ||| ACCEPT_FIRST, some "Nintendo DS ROM", some "arm"⟩

/-- The buffer `buf` with bit `k` of its byte `i` inverted. -/
def flipBit (buf : List Byte) (i : Nat) (k : Fin 8) : List Byte :=
  buf.set i ⟨((buf.getD i 0).val ^^^ 2 ^ k.val) % 256, Nat.mod_lt _ (by decide)⟩


/-! ## The table of ndstool, entry by entry -/

/-- Value of entry `x` of the table of ndstool. -/
def tabVal (x : Nat) : Nat := (ndstool_crc16tab.getD x 0).val

/-- The exclusive or of the table entries `1, 2, 4, ..., 128` selected by the
bits of `a`. -/
def bitSum (a : Nat) : Nat :=
  (if a.testBit 0 then 0xC0C1 else 0) ^^^ (if a.testBit 1 then 0xC181 else 0) ^^^
  (if a.testBit 2 then 0xC301 else 0) ^^^ (if a.testBit 3 then 0xC601 else 0) ^^^
  (if a.testBit 4 then 0xCC01 else 0) ^^^ (if a.testBit 5 then 0xD801 else 0) ^^^
  (if a.testBit 6 then 0xF001 else 0) ^^^ (if a.testBit 7 then 0xA001 else 0)

/-! ## load_file (nds.cpp, lines 135-249) -/

/-- The members of `nds_hdr` (declared in `nds.h`) that `load_file` reads,
after `qlread` has filled the global `hdr`. -/
structure nds_hdr where
  /-- The member `char title[]`, a fixed-length run of bytes. -/
  title : List Byte
  /-- File offset of the ARM9 executable. -/
  arm9_rom_offset : U32
  /-- Entry point of the ARM9 executable. -/
  arm9_entry_address : U32
  /-- RAM address the ARM9 executable is loaded at. -/
  arm9_ram_address : U32
  /-- Length in bytes of the ARM9 executable. -/
  arm9_size : U32
  /-- File offset of the ARM7 executable. -/
  arm7_rom_offset : U32
  /-- Entry point of the ARM7 executable. -/
  arm7_entry_address : U32
  /-- RAM address the ARM7 executable is loaded at. -/
  arm7_ram_address : U32
  /-- Length in bytes of the ARM7 executable. -/
  arm7_size : U32
  /-- Declared size of the header. -/
  headerSize : U32
  /-- Checksum the image claims for its first 350 bytes. -/
  headerCRC16 : U16
deriving DecidableEq, Repr

/-- One entry of the table `memory` (type `MEMARRAY` of `nds.h`): a legal RAM
block.  The member `end` is written `end_`. -/
structure MEMARRAY where
  /-- First address of the block. -/
  start : Nat
  /-- The member `end` of the block. -/
  end_ : Nat
deriving DecidableEq, Repr

/-- A variadic argument of `add_extra_line`. -/
inductive Arg where
  | num (n : Nat)
  | text (s : String)
  | chars (bs : List Byte)
  | char (c : Char)
deriving DecidableEq, Repr

/-- A call from `load_file` into the host, with its arguments. -/
inductive Call where
  | set_processor_type (procname : String)
  | set_selector (selector paragraph : Nat)
  | add_segm (para start end_ : Nat) (name sclass : String)
  | set_segm_addressing (ea bitness : Nat)
  | file2base (pos ea1 ea2 patchable : Nat)
  | add_extra_line (ea : Nat) (isprev : Bool) (format : String) (args : List Arg)
deriving DecidableEq, Repr

/-- The three places where `load_file` calls `loader_failure()`, under the
names the specification gives to the failures: the sanity check of lines
180 and 192, the RAM block check of line 206, a refused `add_segm` on
line 216. -/
inductive Failure where
  | FileTooShort
  | OutOfRange
  | SegmentRefused
deriving DecidableEq, Repr

/-- How a run of `load_file` ends. -/
inductive Exit where
  | returned
  | qexit (code : Nat)
  | loader_failure (site : Failure)
deriving DecidableEq, Repr

/-- The members of the host's global `inf` that `load_file` assigns; `none`
is a member the run has not assigned. -/
structure Inf where
  /-- The member `inf.start_ip`. -/
  start_ip : Option Nat
  /-- The member `inf.start_ea`. -/
  start_ea : Option Nat
  /-- The member `inf.start_cs`. -/
  start_cs : Option Nat
deriving DecidableEq, Repr

/-- The locals `startEA`, `endEA`, `offset` and `ARM9` of `load_file`. -/
structure Locals where
  /-- First address of the load range. -/
  startEA : Nat
  /-- End address of the load range. -/
  endEA : Nat
  /-- File offset the range is read from. -/
  offset : Nat
  /-- Whether the ARM9 executable was chosen. -/
  ARM9 : Bool
deriving DecidableEq, Repr

/-- Everything observable of a run of `load_file`: how it ended, the host
calls it made, what it stored in `inf`, and its locals (`none` for a local
the run never assigned). -/
structure Run where
  /-- How the run ended. -/
  exit : Exit
  /-- The host calls made, oldest first. -/
  calls : List Call
  /-- The assignments to `inf`. -/
  inf : Inf
  /-- The locals `startEA`, `endEA`, `offset`, `ARM9`. -/
  locals : Option Locals
  /-- The local `found_mem_block`. -/
  found_mem_block : Option Bool
  /-- The local `entry_point`. -/
  entry_point : Option Nat
deriving DecidableEq, Repr

/-- What `load_file` needs from the host: the SDK constant `BADADDR` as an
address value (`2^32 - 1` or `2^64 - 1`, by the width of addresses), and the
answer of `add_segm` for a block, given the blocks whose segments the run
has created so far. -/
structure Host where
  /-- The SDK constant `BADADDR`. -/
  BADADDR : Nat
  /-- Result of `add_segm` for a block, after the listed blocks. -/
  add_segm : List MEMARRAY → MEMARRAY → Bool

/-- The SDK macro `CLASS_CODE`. -/
def CLASS_CODE : String := "CODE"

/-- The SDK constant `FILEREG_PATCHABLE`. -/
def FILEREG_PATCHABLE : Nat := 1

/-- The macro `version` of `nds.cpp`. -/
def version : String := "v1.20"

/-- Lines 198-204: the loop that sets `found_mem_block`, leaving at the first
block that passes `startEA >= memory[i].start || endEA <= memory[i].end`. -/
def find_mem_block : List MEMARRAY → Nat → Nat → Bool
  | [], _, _ => false
  | m :: rest, startEA, endEA =>
    if startEA ≥ m.start ∨ endEA ≤ m.end_ then true
    else find_mem_block rest startEA endEA

/-- Lines 214-218: one `add_segm(1, start, end, "RAM", CLASS_CODE)` per
entry of `memory`, in table order, stopping at the first call the host
refuses.  The result is the calls made and whether all were accepted;
`created` lists the blocks whose segments exist already. -/
def create_segments (host : Host) : List MEMARRAY → List MEMARRAY → List Call × Bool
  | [], _ => ([], true)
  | m :: rest, created =>
    if host.add_segm created m then
      (Call.add_segm 1 m.start m.end_ "RAM" CLASS_CODE ::
        (create_segments host rest (created ++ [m])).1,
       (create_segments host rest (created ++ [m])).2)
    else ([Call.add_segm 1 m.start m.end_ "RAM" CLASS_CODE], false)

/-- Lines 229-244: the annotations added to the database. -/
def annotations (hdr : nds_hdr) (v : Locals) (entry_point : Nat) : List Call :=
  [ Call.add_extra_line v.startEA true ";   Created with NDS Loader %s.\n" [Arg.text version],
    Call.add_extra_line v.startEA true ";   Author 1:           dennis@backtrace.de" [],
    Call.add_extra_line v.startEA true ";   Author 2:           hitchhikr@australia.edu\n" [],
    Call.add_extra_line v.startEA true ";   Game Title:         %s\n" [Arg.chars hdr.title],
    Call.add_extra_line v.startEA true ";   Processor:          ARM%c"
      [Arg.char (if v.ARM9 = true then '9' else '7')],
    Call.add_extra_line v.startEA true ";   ROM Header size:    0x%08X" [Arg.num hdr.headerSize.val],
    Call.add_extra_line v.startEA true ";   Header CRC:         0x%04X\n"
      [Arg.num hdr.headerCRC16.val],
    Call.add_extra_line v.startEA true ";   Offset in ROM:      0x%08X"
      [Arg.num (if v.ARM9 = true then hdr.arm9_rom_offset.val else hdr.arm7_rom_offset.val)],
    Call.add_extra_line v.startEA true ";   Array:              0x%08X - 0x%08X (%d bytes)"
      [Arg.num v.startEA, Arg.num v.endEA,
       Arg.num (if v.ARM9 = true then hdr.arm9_size.val else hdr.arm7_size.val)],
    Call.add_extra_line v.startEA true ";   Entry point:        0x%08X\n" [Arg.num entry_point],
    Call.add_extra_line v.startEA true ";   --- Beginning of ROM content ---" [] ] ++
  (if entry_point ≠ v.startEA then
    [Call.add_extra_line entry_point true ";   --- Entry point ---" []]
   else []) ++
  [ Call.add_extra_line v.endEA true ";   --- End of ROM content ---" [] ]

/-- Lines 197-249 of `load_file`, common to the two executables: the RAM
block check, the segments, the copy, the annotations and the entry point.
`calls` and `inf` are the host calls and assignments made so far. -/
def load_tail (host : Host) (memory : List MEMARRAY) (hdr : nds_hdr)
    (calls : List Call) (inf : Inf) (v : Locals) : Run :=
  -- check if segment lies within legal RAM blocks
  if find_mem_block memory v.startEA v.endEA = false then
    ⟨Exit.loader_failure Failure.OutOfRange, calls, inf, some v, some false, none⟩
  -- map selector, create a segment for the legal RAM blocks
  else if (create_segments host memory []).2 = false then
    ⟨Exit.loader_failure Failure.SegmentRefused,
      calls ++ [Call.set_selector 1 0] ++ (create_segments host memory []).1,
      { inf with start_cs := some 1 }, some v, some true, none⟩
  else
    let entry_point :=
      if v.ARM9 = true then hdr.arm9_entry_address.val else hdr.arm7_entry_address.val
    ⟨Exit.returned,
      calls ++ [Call.set_selector 1 0] ++ (create_segments host memory []).1 ++
        -- enable 32bit addressing, load file into RAM area
        [Call.set_segm_addressing v.startEA 1,
         Call.file2base v.offset v.startEA v.endEA FILEREG_PATCHABLE] ++
        annotations hdr v entry_point,
      (if entry_point ≠ host.BADADDR then
        { inf with start_cs := some 0, start_ip := some entry_point }
       else { inf with start_cs := some 1 }),
      some v, some true, some entry_point⟩

/-- `void load_file(linput_t *li, ushort neflags, const char *fileformatname)`.
`hdr` is the header read on line 148, `filesize` the value of `qlsize(li)`,
`answer` the `int` returned by `vask_yn` (1 yes, 0 no, -1 cancel).  `BADADDR`
is the all-ones address, so the test `answer == BADADDR` of line 166, which
converts `answer` to an address, holds for -1 and for no other `int`. -/
def load_file (host : Host) (memory : List MEMARRAY) (hdr : nds_hdr) (filesize : Nat)
    (answer : Int) : Run :=
  -- user chose "cancel" ?
  if answer = -1 then
    ⟨Exit.qexit 1, [], ⟨none, none, none⟩, none, none, none⟩
  -- user chose "yes" = arm9
  else if answer ≠ 0 then
    let startEA := hdr.arm9_ram_address.val
    let endEA := (hdr.arm9_ram_address.val + hdr.arm9_size.val) % 4294967296
    let offset := hdr.arm9_rom_offset.val
    -- sanitycheck
    if filesize < offset + hdr.arm9_size.val then
      ⟨Exit.loader_failure Failure.FileTooShort, [Call.set_processor_type "ARM"],
        ⟨some hdr.arm9_entry_address.val, some hdr.arm9_entry_address.val, none⟩,
        some ⟨startEA, endEA, offset, true⟩, none, none⟩
    else
      load_tail host memory hdr [Call.set_processor_type "ARM"]
        ⟨some hdr.arm9_entry_address.val, some hdr.arm9_entry_address.val, none⟩
        ⟨startEA, endEA, offset, true⟩
  -- user chose "no" = arm7
  else
    let startEA := hdr.arm7_ram_address.val
    let endEA := (hdr.arm7_ram_address.val + hdr.arm7_size.val) % 4294967296
    let offset := hdr.arm7_rom_offset.val
    -- sanitycheck
    if filesize < offset + hdr.arm7_size.val then
      ⟨Exit.loader_failure Failure.FileTooShort, [Call.set_processor_type "ARM710A"],
        ⟨some hdr.arm7_entry_address.val, some hdr.arm7_entry_address.val, none⟩,
        some ⟨startEA, endEA, offset, false⟩, none, none⟩
    else
      load_tail host memory hdr [Call.set_processor_type "ARM710A"]
        ⟨some hdr.arm7_entry_address.val, some hdr.arm7_entry_address.val, none⟩
        ⟨startEA, endEA, offset, false⟩

/-- The `add_segm` calls of a call log, as `(start, end)` pairs, in order:
the segments the caller is given to work with. -/
def segments : List Call → List (Nat × Nat)
  | [] => []
  | Call.add_segm _ s e _ _ :: rest => (s, e) :: segments rest
  | _ :: rest => segments rest

/-- The `file2base` calls of a call log, as `(pos, ea1, ea2)`, in order. -/
def copies : List Call → List (Nat × Nat × Nat)
  | [] => []
  | Call.file2base pos ea1 ea2 _ :: rest => (pos, ea1, ea2) :: copies rest
  | _ :: rest => copies rest

/-- A host that accepts every segment; `BADADDR` is that of 32-bit addresses. -/
def plain_host : Host := ⟨0xFFFFFFFF, fun _ _ => true⟩

/-- A header whose ARM9 executable is the one of the end-to-end scenario of
the specification. -/
def scenario_hdr : nds_hdr :=
  { title := [], arm9_rom_offset := 0x4000, arm9_entry_address := 0x02004000,
    arm9_ram_address := 0x02000000, arm9_size := 0x10000,
    arm7_rom_offset := 0x14000, arm7_entry_address := 0x037F8000,
    arm7_ram_address := 0x037F8000, arm7_size := 0x8000,
    headerSize := 0x4000, headerCRC16 := 0 }

/-- The memory window of the end-to-end scenario of the specification. -/
def scenario_memory : List MEMARRAY := [⟨0x02000000, 0x023FFFFF⟩]

/-- A header whose ARM9 executable is to be loaded at `0x10000000`, above the
memory window of the scenario. -/
def far_hdr : nds_hdr :=
  { scenario_hdr with arm9_ram_address := 0x10000000, arm9_entry_address := 0x10000000 }

/-- The load plan a run leaves behind: the load range, the file offset it is
filled from, and the entry point stored in `inf.start_ip`; `none` when the
run ended before choosing an executable. -/
structure LoadPlan where
  /-- First address of the load range. -/
  startEA : Nat
  /-- End address of the load range. -/
  endEA : Nat
  /-- File offset of the bytes to load. -/
  offset : Nat
  /-- Entry point of the program. -/
  entryPoint : Nat
deriving DecidableEq, Repr

/-- The load plan of a run. -/
def Run.plan (r : Run) : Option LoadPlan :=
  match r.locals, r.inf.start_ip with
  | some v, some e => some ⟨v.startEA, v.endEA, v.offset, e⟩
  | _, _ => none

/-- A table of two memory windows, the window of the scenario second. -/
def two_windows : List MEMARRAY := [⟨0x037F8000, 0x0380FFFF⟩, ⟨0x02000000, 0x023FFFFF⟩]


/-! ## Sample inputs -/

/-- A 512-byte image: 350 bytes of content, their checksum `0x849F` stored
low byte first at offset `0x15E`, and padding up to the header size. -/
def sample_image : List Byte :=
  (List.range 350).map (fun i => Fin.ofNat (i * 7 + 3)) ++ [159, 132] ++ List.replicate 160 0

/-- The sample image as an input the host reads without error. -/
def sample_input : linput := ⟨sample_image, false⟩

/-- The first 400 bytes of the sample image: shorter than a header, though
its first 350 bytes carry the checksum stored after them. -/
def short_input : linput := ⟨sample_image.take 400, false⟩


/-! ## The checksum loop as a fold -/

theorem crcStep_lt (tab : List U16) (c : Nat) (d : Byte) : crcStep tab c d < 65536 :=
  Nat.mod_lt _ (by decide)

theorem specStep_lt (tab : List U16) (c : Nat) (d : Byte) (hc : c < 65536) :
    specStep tab c d < 65536 := by
  unfold specStep
  have h1 : c >>> 8 < 2 ^ 16 := by
    rw [Nat.shiftRight_eq_div_pow]
    exact lt_of_le_of_lt (Nat.div_le_self _ _) hc
  have h2 : (tab.getD ((c ^^^ d.val) &&& 0xFF) 0).val < 2 ^ 16 := Fin.is_lt _
  exact Nat.xor_lt_two_pow h1 h2

theorem crcStep_eq_specStep (tab : List U16) (c : Nat) (d : Byte) (hc : c < 65536) :
    crcStep tab c d = specStep tab c d :=
  Nat.mod_eq_of_lt (specStep_lt tab c d hc)

theorem loop_eq_foldl (tab : List U16) (buf : List Byte) :
    ∀ (n i c : Nat), i + n ≤ buf.length →
      CalcCRC16.loop tab buf n i c = ((buf.drop i).take n).foldl (crcStep tab) c := by
  intro n
  induction n with
  | zero => intro i c _; simp [CalcCRC16.loop]
  | succ n ih =>
    intro i c h
    have hi : i < buf.length := by omega
    rw [CalcCRC16.loop, ih (i + 1) _ (by omega)]
    rw [List.drop_eq_getElem_cons hi, List.take_succ_cons, List.foldl_cons]
    rw [List.getD_eq_getElem _ _ hi]

theorem foldl_crcStep_lt (tab : List U16) (l : List Byte) :
    ∀ c, c < 65536 → l.foldl (crcStep tab) c < 65536 := by
  induction l with
  | nil => intro c hc; simpa using hc
  | cons d l ih => intro c _; exact ih _ (crcStep_lt tab c d)

theorem foldl_crcStep_eq_specStep (tab : List U16) (l : List Byte) :
    ∀ c, c < 65536 → l.foldl (crcStep tab) c = l.foldl (specStep tab) c := by
  induction l with
  | nil => intro c _; rfl
  | cons d l ih =>
    intro c hc
    rw [List.foldl_cons, List.foldl_cons, ih _ (crcStep_lt tab c d), crcStep_eq_specStep tab c d hc]

theorem CalcCRC16_eq_foldl (tab : List U16) (buf : List Byte) (h : 350 ≤ buf.length) :
    CalcCRC16 tab buf = (buf.take 350).foldl (crcStep tab) 0xFFFF := by
  unfold CalcCRC16
  rw [loop_eq_foldl tab buf 350 0 0xFFFF (by omega)]
  simp

theorem CalcCRC16_lt (tab : List U16) (buf : List Byte) : CalcCRC16 tab buf < 65536 := by
  unfold CalcCRC16
  generalize (0 : Nat) = i
  have : ∀ n i c, c < 65536 → CalcCRC16.loop tab buf n i c < 65536 := by
    intro n
    induction n with
    | zero => intro i c hc; simpa [CalcCRC16.loop] using hc
    | succ n ih => intro i c _; rw [CalcCRC16.loop]; exact ih _ _ (crcStep_lt _ _ _)
  exact this 350 i 0xFFFF (by decide)

theorem CalcCRC16_take (tab : List U16) (buf : List Byte) (n : Nat) (hn : 350 ≤ n)
    (h : n ≤ buf.length) : CalcCRC16 tab (buf.take n) = CalcCRC16 tab buf := by
  rw [CalcCRC16_eq_foldl tab buf (by omega),
    CalcCRC16_eq_foldl tab (buf.take n) (by rw [List.length_take]; omega)]
  rw [List.take_take, Nat.min_eq_left hn]


/-! ## The table of the polynomial 0xA001 is linear and one-to-one -/

set_option maxRecDepth 100000 in
theorem ndstool_crc16tab_eq_generated :
    ndstool_crc16tab.map Fin.val = (List.range 256).map crcTableEntry := by decide!

set_option maxRecDepth 100000 in
theorem tabVal_eq_bitSum :
    ∀ a < 256, tabVal a = bitSum a := by decide!

set_option maxRecDepth 100000 in
theorem tabVal_lt_256_imp : ∀ a < 256, tabVal a < 256 → a = 0 := by decide!

theorem ite_xor_bool (x y : Bool) (c : Nat) :
    (if (x ^^ y) = true then c else 0) =
      (if x = true then c else 0) ^^^ (if y = true then c else 0) := by
  cases x <;> cases y <;> simp

theorem bitSum_xor (a b : Nat) : bitSum (a ^^^ b) = bitSum a ^^^ bitSum b := by
  unfold bitSum
  simp only [Nat.testBit_xor, ite_xor_bool]
  ac_rfl

theorem tabVal_xor (a b : Nat) (ha : a < 256) (hb : b < 256) :
    tabVal (a ^^^ b) = tabVal a ^^^ tabVal b := by
  have hab : a ^^^ b < 256 := Nat.xor_lt_two_pow (n := 8) ha hb
  rw [tabVal_eq_bitSum _ hab, tabVal_eq_bitSum _ ha, tabVal_eq_bitSum _ hb, bitSum_xor]

theorem tabVal_inj (a b : Nat) (ha : a < 256) (hb : b < 256) (h : tabVal a = tabVal b) :
    a = b := by
  have hab : a ^^^ b < 256 := Nat.xor_lt_two_pow (n := 8) ha hb
  have h0 : tabVal (a ^^^ b) = 0 := by
    rw [tabVal_xor a b ha hb, h, Nat.xor_self]
  exact Nat.xor_eq_zero.mp (tabVal_lt_256_imp _ hab (by omega))

theorem low_lt (x : Nat) : x &&& 0xFF < 256 := Nat.and_lt_two_pow (n := 8) x (by decide)

theorem low_xor (r d : Nat) : (r ^^^ d) &&& 0xFF = (r &&& 0xFF) ^^^ (d &&& 0xFF) :=
  Nat.and_xor_distrib_right

theorem low_byte (d : Byte) : d.val &&& 0xFF = d.val :=
  Nat.and_pow_two_sub_one_of_lt_two_pow (n := 8) d.is_lt

theorem specStep_tab (c : Nat) (d : Byte) :
    specStep ndstool_crc16tab c d = (c >>> 8) ^^^ tabVal ((c ^^^ d.val) &&& 0xFF) := rfl

theorem high_lt (c : Nat) (hc : c < 65536) : c >>> 8 < 256 := by
  rw [Nat.shiftRight_eq_div_pow]; omega

/-- With the table of ndstool, the step is one-to-one in the register. -/
theorem specStep_register_inj (c c2 : Nat) (d : Byte) (hc : c < 65536) (hc2 : c2 < 65536)
    (h : specStep ndstool_crc16tab c d = specStep ndstool_crc16tab c2 d) : c = c2 := by
  rw [specStep_tab, specStep_tab] at h
  have hl := low_lt (c ^^^ d.val)
  have hl2 := low_lt (c2 ^^^ d.val)
  have hh := high_lt c hc
  have hh2 := high_lt c2 hc2
  -- the difference of the high parts is the table value of the difference of the indices
  have key : (c >>> 8) ^^^ (c2 >>> 8) =
      tabVal (((c ^^^ d.val) &&& 0xFF) ^^^ ((c2 ^^^ d.val) &&& 0xFF)) := by
    rw [tabVal_xor _ _ hl hl2]
    have := congrArg (fun t => (c >>> 8) ^^^ (t ^^^ tabVal ((c2 ^^^ d.val) &&& 0xFF))) h
    simp only at this
    rw [Nat.xor_assoc ((c >>> 8)) _ _, ← Nat.xor_assoc (c >>> 8) (c >>> 8) _, Nat.xor_self,
      Nat.zero_xor, Nat.xor_assoc, Nat.xor_self, Nat.xor_zero] at this
    exact this.symm
  have hx : ((c ^^^ d.val) &&& 0xFF) ^^^ ((c2 ^^^ d.val) &&& 0xFF) < 256 :=
    Nat.xor_lt_two_pow (n := 8) hl hl2
  have hsmall : (c >>> 8) ^^^ (c2 >>> 8) < 256 := Nat.xor_lt_two_pow (n := 8) hh hh2
  have hidx : ((c ^^^ d.val) &&& 0xFF) = ((c2 ^^^ d.val) &&& 0xFF) :=
    Nat.xor_eq_zero.mp (tabVal_lt_256_imp _ hx (by rw [← key]; exact hsmall))
  have hhigh : c >>> 8 = c2 >>> 8 := by
    rw [hidx] at h
    exact Nat.xor_left_injective h
  have hlow : c &&& 0xFF = c2 &&& 0xFF := by
    rw [low_xor, low_xor] at hidx
    exact Nat.xor_left_injective hidx
  rw [Nat.shiftRight_eq_div_pow, Nat.shiftRight_eq_div_pow] at hhigh
  have e1 : c &&& 0xFF = c % 256 := Nat.and_pow_two_sub_one_eq_mod c 8
  have e2 : c2 &&& 0xFF = c2 % 256 := Nat.and_pow_two_sub_one_eq_mod c2 8
  rw [e1, e2] at hlow
  omega

/-- With the table of ndstool, two different bytes send a register to two
different registers. -/
theorem specStep_byte_inj (c : Nat) (d d2 : Byte)
    (h : specStep ndstool_crc16tab c d = specStep ndstool_crc16tab c d2) : d = d2 := by
  rw [specStep_tab, specStep_tab] at h
  have hidx := tabVal_inj _ _ (low_lt _) (low_lt _) (Nat.xor_right_injective h)
  rw [low_xor, low_xor, low_byte, low_byte] at hidx
  exact Fin.ext (Nat.xor_right_injective hidx)

theorem foldl_crcStep_inj (l : List Byte) :
    ∀ c c2, c < 65536 → c2 < 65536 →
      l.foldl (crcStep ndstool_crc16tab) c = l.foldl (crcStep ndstool_crc16tab) c2 → c = c2 := by
  induction l with
  | nil => intro c c2 _ _ h; simpa using h
  | cons d l ih =>
    intro c c2 hc hc2 h
    rw [List.foldl_cons, List.foldl_cons] at h
    have hs := ih _ _ (crcStep_lt _ c d) (crcStep_lt _ c2 d) h
    rw [crcStep_eq_specStep _ _ _ hc, crcStep_eq_specStep _ _ _ hc2] at hs
    exact specStep_register_inj c c2 d hc hc2 hs

/-- Changing one byte of the checksum window changes the checksum. -/
theorem CalcCRC16_set_ne (buf : List Byte) (i : Nat) (b : Byte) (hlen : 350 ≤ buf.length)
    (hi : i < 350) (hb : b ≠ buf.getD i 0) :
    CalcCRC16 ndstool_crc16tab (buf.set i b) ≠ CalcCRC16 ndstool_crc16tab buf := by
  have hil : i < buf.length := by omega
  rw [CalcCRC16_eq_foldl _ _ hlen, CalcCRC16_eq_foldl _ _ (by rw [List.length_set]; exact hlen)]
  intro h
  have hsplit : buf = buf.take i ++ buf.getD i 0 :: buf.drop (i + 1) := by
    rw [List.getD_eq_getElem _ _ hil]
    simp
  have hset : buf.set i b = buf.take i ++ b :: buf.drop (i + 1) := by
    rw [List.set_eq_take_append_cons_drop]
    simp [hil]
  rw [hset] at h
  nth_rewrite 3 [hsplit] at h
  have hti : (buf.take i).length = i := by rw [List.length_take]; omega
  rw [List.take_append_eq_append_take, List.take_append_eq_append_take, hti,
    List.take_of_length_le (by omega : (buf.take i).length ≤ 350)] at h
  have h350 : 350 - i = (350 - i - 1) + 1 := by omega
  rw [h350, List.take_succ_cons, List.take_succ_cons, List.foldl_append, List.foldl_append,
    List.foldl_cons, List.foldl_cons] at h
  have hc := foldl_crcStep_lt ndstool_crc16tab (buf.take i) 0xFFFF (by decide)
  have hs := foldl_crcStep_inj _ _ _ (crcStep_lt _ _ _) (crcStep_lt _ _ _) h
  rw [crcStep_eq_specStep _ _ _ hc, crcStep_eq_specStep _ _ _ hc] at hs
  exact hb (specStep_byte_inj _ _ _ hs)


/-! ## accept_file -/

theorem getD_take (bytes : List Byte) (n i : Nat) (h : i < n) :
    (bytes.take n).getD i 0 = bytes.getD i 0 := by
  simp [List.getD_eq_getElem?_getD, List.getElem?_take, h]

theorem headerCRC16_take (L : nds_hdr_layout) (bytes : List Byte) :
    headerCRC16 L (bytes.take L.size) = headerCRC16 L bytes := by
  have h := L.field_le
  unfold headerCRC16
  rw [getD_take _ _ _ (by omega), getD_take _ _ _ (by omega)]

theorem qlread_full (li : linput) (n : Nat) (h : (qlread li 0 n).1 = (n : Int)) :
    (qlread li 0 n).2 = li.bytes.take n := by
  unfold qlread at h ⊢
  cases hr : li.read_error
  · simp
  · rw [hr] at h
    simp only [if_true] at h
    omega

theorem accept_file_of_read (L : nds_hdr_layout) (tab : List U16) (li : linput)
    (hlen : L.size ≤ li.bytes.length) (hread : (qlread li 0 L.size).1 = (L.size : Int)) :
    accept_file L tab li =
      if CalcCRC16 tab li.bytes = headerCRC16 L li.bytes then
        ⟨1 ||| ACCEPT_FIRST, some "Nintendo DS ROM", some "arm"⟩
      else ⟨0, none, none⟩ := by
  unfold accept_file
  have h1 : ¬ qlsize li < L.size := by unfold qlsize; omega
  rw [if_neg h1, if_neg (by simpa using hread), qlread_full li L.size hread,
    CalcCRC16_take tab li.bytes L.size L.window_le hlen, headerCRC16_take]
  by_cases hc : CalcCRC16 tab li.bytes = headerCRC16 L li.bytes
  · simp [hc]
  · simp [hc]

theorem accept_code_ne_zero : (1 ||| ACCEPT_FIRST) ≠ 0 := by decide

/-- C1. For every input at least as long as the header and whose header read
succeeds, accept_file returns `1 | ACCEPT_FIRST`, a non-zero value, exactly
when CalcCRC16 over bytes [0,350) of the input equals the little-endian
16-bit value at the offset of headerCRC16 in the same input, and returns 0
exactly when it does not. -/
theorem accept_file_iff_crc (L : nds_hdr_layout) (crc16tab : List U16) (li : linput)
    (hlen : L.size ≤ li.bytes.length) (hread : (qlread li 0 L.size).1 = (L.size : Int)) :
    ((accept_file L crc16tab li).ret ≠ 0 ↔
        CalcCRC16 crc16tab (li.bytes.take 350) =
          (li.bytes.getD L.headerCRC16 0).val + 256 * (li.bytes.getD (L.headerCRC16 + 1) 0).val) ∧
    ((accept_file L crc16tab li).ret ≠ 0 → (accept_file L crc16tab li).ret = (1 ||| ACCEPT_FIRST)) ∧
    ((accept_file L crc16tab li).ret = 0 ↔
        CalcCRC16 crc16tab (li.bytes.take 350) ≠
          (li.bytes.getD L.headerCRC16 0).val + 256 * (li.bytes.getD (L.headerCRC16 + 1) 0).val) := by
  have hw := L.window_le
  rw [accept_file_of_read L crc16tab li hlen hread,
    CalcCRC16_take crc16tab li.bytes 350 (le_refl _) (by omega)]
  change _ ∧ _ ∧ (_ ↔ CalcCRC16 crc16tab li.bytes ≠ headerCRC16 L li.bytes)
  change (_ ↔ CalcCRC16 crc16tab li.bytes = headerCRC16 L li.bytes) ∧ _
  by_cases hc : CalcCRC16 crc16tab li.bytes = headerCRC16 L li.bytes
  · simp [hc, accept_code_ne_zero]
  · simp [hc]

set_option maxRecDepth 100000 in
/-- The sample image, 512 bytes with the checksum of its first 350 bytes stored at
offset 0x15E, is read in full and accepted. -/
theorem accept_file_iff_crc_witness :
    (cartridge_layout.size ≤ sample_input.bytes.length ∧
      (qlread sample_input 0 cartridge_layout.size).1 = (cartridge_layout.size : Int)) ∧
    (accept_file cartridge_layout ndstool_crc16tab sample_input).ret = 0x8001 ∧
    CalcCRC16 ndstool_crc16tab (sample_input.bytes.take 350) = 0x849F := by
  have hlen : cartridge_layout.size ≤ sample_input.bytes.length := by decide
  have hread : (qlread sample_input 0 cartridge_layout.size).1 = (cartridge_layout.size : Int) := by
    decide
  have hcrc : CalcCRC16 ndstool_crc16tab (sample_input.bytes.take 350) = 0x849F := by decide!
  have hfield : (sample_input.bytes.getD cartridge_layout.headerCRC16 0).val +
      256 * (sample_input.bytes.getD (cartridge_layout.headerCRC16 + 1) 0).val = 0x849F := by
    decide!
  have h := accept_file_iff_crc cartridge_layout ndstool_crc16tab sample_input hlen hread
  exact ⟨⟨hlen, hread⟩, h.2.1 (h.1.mpr (hcrc.trans hfield.symm)), hcrc⟩

/-- C2. For every input shorter than the header, accept_file returns 0 and
stores no string, whatever the bytes are: the function is total, and the
answer is the same when the first 350 bytes carry a matching checksum. -/
theorem accept_file_short (L : nds_hdr_layout) (crc16tab : List U16) (li : linput)
    (hlen : li.bytes.length < L.size) :
    accept_file L crc16tab li = ⟨0, none, none⟩ := by
  unfold accept_file
  rw [if_pos (by unfold qlsize; exact hlen)]

set_option maxRecDepth 100000 in
/-- The first 400 bytes of the sample image carry a matching checksum and are
rejected all the same, being shorter than the header. -/
theorem accept_file_short_witness :
    short_input.bytes.length < cartridge_layout.size ∧
    CalcCRC16 ndstool_crc16tab short_input.bytes = headerCRC16 cartridge_layout short_input.bytes ∧
    accept_file cartridge_layout ndstool_crc16tab short_input = ⟨0, none, none⟩ :=
  ⟨by decide, by decide!,
    accept_file_short cartridge_layout ndstool_crc16tab short_input (by decide)⟩

/-- C3. For every buffer of at least 350 bytes, CalcCRC16 is the left fold,
over bytes 0..349 in order, of the step
`register := (register >> 8) XOR table[(register XOR byte) AND 0xFF]`
from the register 0xFFFF, and it is a 16-bit value; so two buffers with the
same first 350 bytes have the same checksum, whatever follows. -/
theorem CalcCRC16_eq_fold (crc16tab : List U16) (buf : List Byte) (hlen : 350 ≤ buf.length) :
    CalcCRC16 crc16tab buf =
        (buf.take 350).foldl
          (fun register byte =>
            (register >>> 8) ^^^ (crc16tab.getD ((register ^^^ byte.val) &&& 0xFF) 0).val)
          0xFFFF ∧
    CalcCRC16 crc16tab buf = specChecksum crc16tab buf ∧
    CalcCRC16 crc16tab buf < 65536 ∧
    ∀ buf2 : List Byte, 350 ≤ buf2.length → buf2.take 350 = buf.take 350 →
      CalcCRC16 crc16tab buf2 = CalcCRC16 crc16tab buf := by
  have hfold : CalcCRC16 crc16tab buf = specChecksum crc16tab buf := by
    rw [CalcCRC16_eq_foldl crc16tab buf hlen,
      foldl_crcStep_eq_specStep crc16tab _ 0xFFFF (by decide)]
    rfl
  refine ⟨hfold, hfold, CalcCRC16_lt crc16tab buf, ?_⟩
  intro buf2 h2 heq
  rw [CalcCRC16_eq_foldl crc16tab buf hlen, CalcCRC16_eq_foldl crc16tab buf2 h2, heq]

set_option maxRecDepth 100000 in
/-- On the sample image the loop and the fold agree, and cutting the image after
400 bytes leaves the checksum as it is. -/
theorem CalcCRC16_eq_fold_witness :
    350 ≤ sample_image.length ∧
    CalcCRC16 ndstool_crc16tab sample_image = specChecksum ndstool_crc16tab sample_image ∧
    CalcCRC16 ndstool_crc16tab (sample_image.take 400) = CalcCRC16 ndstool_crc16tab sample_image :=
  ⟨by decide, (CalcCRC16_eq_fold ndstool_crc16tab sample_image (by decide)).2.1,
    (CalcCRC16_eq_fold ndstool_crc16tab sample_image (by decide)).2.2.2
      (sample_image.take 400) (by decide) (by decide)⟩


/-! ## Single-bit changes of the checksum window -/

theorem qlread_count (li : linput) (n : Nat) (hr : li.read_error = false)
    (hlen : n ≤ li.bytes.length) : (qlread li 0 n).1 = (n : Int) := by
  unfold qlread
  rw [hr]
  simp [hlen]

theorem flipBit_length (buf : List Byte) (i : Nat) (k : Fin 8) :
    (flipBit buf i k).length = buf.length := by
  unfold flipBit
  rw [List.length_set]

theorem flipped_byte_ne (b : Byte) (k : Fin 8) :
    (⟨(b.val ^^^ 2 ^ k.val) % 256, Nat.mod_lt _ (by decide)⟩ : Byte) ≠ b := by
  intro h
  have hv : (b.val ^^^ 2 ^ k.val) % 256 = b.val := congrArg Fin.val h
  have hk : 2 ^ k.val < 2 ^ 8 := Nat.pow_lt_pow_right (by decide) k.is_lt
  have hx : b.val ^^^ 2 ^ k.val < 256 := Nat.xor_lt_two_pow (n := 8) b.is_lt hk
  rw [Nat.mod_eq_of_lt hx] at hv
  have h0 : 2 ^ k.val = 0 := by
    have := Nat.xor_cancel_left b.val (2 ^ k.val)
    rw [hv, Nat.xor_self] at this
    exact this.symm
  exact absurd h0 (by positivity)

theorem flipBit_getD_other (buf : List Byte) (i j : Nat) (k : Fin 8) (h : i ≠ j) :
    (flipBit buf i k).getD j 0 = buf.getD j 0 := by
  unfold flipBit
  simp [List.getD_eq_getElem?_getD, List.getElem?_set, h]

/-- C4. The CRC16 table of ndstool is the table of the reflected polynomial
0xA001, and with it: an image of valid length whose headerCRC16 field equals
CalcCRC16 of its first 350 bytes is accepted; inverting any single bit of
bytes [0,350) changes the computed checksum, so the image with that bit
inverted and the stored headerCRC16 unchanged is rejected; and the stored
field is unchanged whenever it lies after the 350 bytes. -/
theorem single_bit_flip_rejected (L : nds_hdr_layout) (li : linput) (i : Nat) (k : Fin 8)
    (hlen : L.size ≤ li.bytes.length) (hread : li.read_error = false)
    (hvalid : headerCRC16 L li.bytes = CalcCRC16 ndstool_crc16tab li.bytes) (hi : i < 350) :
    ndstool_crc16tab.map Fin.val = (List.range 256).map crcTableEntry ∧
    (accept_file L ndstool_crc16tab li).ret ≠ 0 ∧
    CalcCRC16 ndstool_crc16tab (flipBit li.bytes i k) ≠ CalcCRC16 ndstool_crc16tab li.bytes ∧
    (headerCRC16 L (flipBit li.bytes i k) = headerCRC16 L li.bytes →
      (accept_file L ndstool_crc16tab ⟨flipBit li.bytes i k, li.read_error⟩).ret = 0) ∧
    (350 ≤ L.headerCRC16 → headerCRC16 L (flipBit li.bytes i k) = headerCRC16 L li.bytes) := by
  have hw := L.window_le
  have hne : CalcCRC16 ndstool_crc16tab (flipBit li.bytes i k) ≠
      CalcCRC16 ndstool_crc16tab li.bytes :=
    CalcCRC16_set_ne li.bytes i _ (by omega) hi (flipped_byte_ne _ k)
  refine ⟨ndstool_crc16tab_eq_generated, ?_, hne, ?_, ?_⟩
  · rw [accept_file_of_read L _ li hlen (qlread_count li L.size hread hlen), if_pos hvalid.symm]
    exact accept_code_ne_zero
  · intro hsame
    have hlen2 : L.size ≤ (flipBit li.bytes i k).length := by rw [flipBit_length]; exact hlen
    rw [accept_file_of_read L _ ⟨flipBit li.bytes i k, li.read_error⟩ hlen2
      (qlread_count _ L.size hread hlen2)]
    rw [if_neg]
    change CalcCRC16 ndstool_crc16tab (flipBit li.bytes i k) ≠
      headerCRC16 L (flipBit li.bytes i k)
    rw [hsame, hvalid]
    exact hne
  · intro hoff
    unfold headerCRC16
    rw [flipBit_getD_other _ _ _ _ (by omega), flipBit_getD_other _ _ _ _ (by omega)]

set_option maxRecDepth 100000 in
/-- The sample image is accepted; with bit 5 of its byte 17 inverted it is
rejected. -/
theorem single_bit_flip_rejected_witness :
    (cartridge_layout.size ≤ sample_input.bytes.length ∧ sample_input.read_error = false ∧
      headerCRC16 cartridge_layout sample_input.bytes =
        CalcCRC16 ndstool_crc16tab sample_input.bytes ∧ 17 < 350) ∧
    (accept_file cartridge_layout ndstool_crc16tab sample_input).ret ≠ 0 ∧
    (accept_file cartridge_layout ndstool_crc16tab
      ⟨flipBit sample_input.bytes 17 5, sample_input.read_error⟩).ret = 0 := by
  have hlen : cartridge_layout.size ≤ sample_input.bytes.length := by decide
  have hread : sample_input.read_error = false := rfl
  have hvalid : headerCRC16 cartridge_layout sample_input.bytes =
      CalcCRC16 ndstool_crc16tab sample_input.bytes := by decide!
  have h := single_bit_flip_rejected cartridge_layout sample_input 17 5 hlen hread hvalid
    (by decide)
  exact ⟨⟨hlen, hread, hvalid, by decide⟩, h.2.1, h.2.2.2.1 (h.2.2.2.2 (by decide))⟩


/-! ## load_file: the RAM block check and the segments -/

theorem find_mem_block_iff (memory : List MEMARRAY) (startEA endEA : Nat) :
    find_mem_block memory startEA endEA = true ↔
      ∃ w ∈ memory, startEA ≥ w.start ∨ endEA ≤ w.end_ := by
  induction memory with
  | nil => simp [find_mem_block]
  | cons m rest ih =>
    unfold find_mem_block
    by_cases h : startEA ≥ m.start ∨ endEA ≤ m.end_
    · simp only [if_pos h, true_iff]
      exact ⟨m, List.mem_cons_self _ _, h⟩
    · rw [if_neg h, ih]
      constructor
      · rintro ⟨w, hw, hc⟩
        exact ⟨w, List.mem_cons_of_mem _ hw, hc⟩
      · rintro ⟨w, hw, hc⟩
        rcases List.mem_cons.mp hw with rfl | hw2
        · exact absurd hc h
        · exact ⟨w, hw2, hc⟩

theorem create_segments_accepting (host : Host) (hacc : ∀ c m, host.add_segm c m = true) :
    ∀ (memory created : List MEMARRAY),
      create_segments host memory created =
        (memory.map (fun m => Call.add_segm 1 m.start m.end_ "RAM" CLASS_CODE), true) := by
  intro memory
  induction memory with
  | nil => intro created; rfl
  | cons m rest ih =>
    intro created
    rw [create_segments, if_pos (hacc created m), ih]
    rfl

theorem segments_append (a b : List Call) : segments (a ++ b) = segments a ++ segments b := by
  induction a with
  | nil => rfl
  | cons c a ih => cases c <;> simp [segments, ih]

theorem copies_append (a b : List Call) : copies (a ++ b) = copies a ++ copies b := by
  induction a with
  | nil => rfl
  | cons c a ih => cases c <;> simp [copies, ih]

theorem segments_add_segm (memory : List MEMARRAY) :
    segments (memory.map (fun m => Call.add_segm 1 m.start m.end_ "RAM" CLASS_CODE)) =
      memory.map (fun m => (m.start, m.end_)) := by
  induction memory with
  | nil => rfl
  | cons m rest ih => simp [segments, ih]

theorem copies_add_segm (memory : List MEMARRAY) :
    copies (memory.map (fun m => Call.add_segm 1 m.start m.end_ "RAM" CLASS_CODE)) = [] := by
  induction memory with
  | nil => rfl
  | cons m rest ih => simp [copies, ih]

theorem segments_annotations (hdr : nds_hdr) (v : Locals) (e : Nat) :
    segments (annotations hdr v e) = [] := by
  unfold annotations
  by_cases h : e ≠ v.startEA <;> simp [h, segments]

theorem copies_annotations (hdr : nds_hdr) (v : Locals) (e : Nat) :
    copies (annotations hdr v e) = [] := by
  unfold annotations
  by_cases h : e ≠ v.startEA <;> simp [h, copies]

theorem copies_create_segments (host : Host) :
    ∀ (memory created : List MEMARRAY), copies (create_segments host memory created).1 = [] := by
  intro memory
  induction memory with
  | nil => intro created; rfl
  | cons m rest ih =>
    intro created
    rw [create_segments]
    by_cases h : host.add_segm created m = true
    · simp [h, copies, ih]
    · simp [h, copies]

/-- What `load_tail` leaves in its result, whatever the branch. -/
theorem load_tail_fields (host : Host) (memory : List MEMARRAY) (hdr : nds_hdr)
    (calls : List Call) (inf : Inf) (v : Locals) :
    (load_tail host memory hdr calls inf v).locals = some v ∧
    (load_tail host memory hdr calls inf v).inf.start_ea = inf.start_ea ∧
    (load_tail host memory hdr calls inf v).found_mem_block =
      some (find_mem_block memory v.startEA v.endEA) ∧
    (load_tail host memory hdr calls inf v).exit ≠ Exit.loader_failure Failure.FileTooShort ∧
    ((load_tail host memory hdr calls inf v).exit = Exit.loader_failure Failure.OutOfRange ↔
      find_mem_block memory v.startEA v.endEA = false) := by
  unfold load_tail
  by_cases h1 : find_mem_block memory v.startEA v.endEA = false
  · simp [h1]
  · by_cases h2 : (create_segments host memory []).2 = false
    · simp [h1, h2]
    · by_cases h3 : (if v.ARM9 = true then hdr.arm9_entry_address.val
          else hdr.arm7_entry_address.val) ≠ host.BADADDR
      · simp [h1, h2, h3]
      · simp [h1, h2, h3]

/-- The entry point `load_tail` leaves in `inf.start_ip`. -/
theorem load_tail_start_ip (host : Host) (memory : List MEMARRAY) (hdr : nds_hdr)
    (calls : List Call) (inf : Inf) (v : Locals)
    (hinf : inf.start_ip = some (if v.ARM9 = true then hdr.arm9_entry_address.val
      else hdr.arm7_entry_address.val)) :
    (load_tail host memory hdr calls inf v).inf.start_ip =
      some (if v.ARM9 = true then hdr.arm9_entry_address.val else hdr.arm7_entry_address.val) ∧
    ((load_tail host memory hdr calls inf v).exit = Exit.returned →
      (load_tail host memory hdr calls inf v).entry_point =
        some (if v.ARM9 = true then hdr.arm9_entry_address.val
          else hdr.arm7_entry_address.val)) := by
  unfold load_tail
  by_cases h1 : find_mem_block memory v.startEA v.endEA = false
  · simp [h1, hinf]
  · by_cases h2 : (create_segments host memory []).2 = false
    · simp [h1, h2, hinf]
    · by_cases h3 : (if v.ARM9 = true then hdr.arm9_entry_address.val
          else hdr.arm7_entry_address.val) ≠ host.BADADDR
      · simp [h1, h2, h3]
      · simp [h1, h2, h3, hinf]

/-- The run of `load_tail` on a range that passes the RAM block check, with a
host that accepts every segment. -/
theorem load_tail_accepting (host : Host) (memory : List MEMARRAY) (hdr : nds_hdr)
    (calls : List Call) (inf : Inf) (v : Locals)
    (hfound : find_mem_block memory v.startEA v.endEA = true)
    (hacc : ∀ c m, host.add_segm c m = true) :
    (load_tail host memory hdr calls inf v).exit = Exit.returned ∧
    segments (load_tail host memory hdr calls inf v).calls =
      segments calls ++ memory.map (fun m => (m.start, m.end_)) ∧
    copies (load_tail host memory hdr calls inf v).calls =
      copies calls ++ [(v.offset, v.startEA, v.endEA)] := by
  unfold load_tail
  rw [create_segments_accepting host hacc]
  simp only [hfound, Bool.true_eq_false, if_false, segments_append, copies_append,
    segments_add_segm, copies_add_segm, segments_annotations, copies_annotations]
  simp [segments, copies]


theorem segments_create_segments_prefix (host : Host) :
    ∀ (memory created : List MEMARRAY),
      segments (create_segments host memory created).1 <+:
        memory.map (fun m => (m.start, m.end_)) := by
  intro memory
  induction memory with
  | nil => intro created; exact List.prefix_refl _
  | cons m rest ih =>
    intro created
    rw [create_segments]
    by_cases h : host.add_segm created m = true
    · rw [if_pos h]
      simp only [segments, List.map_cons]
      exact (List.prefix_cons_inj _).mpr (ih _)
    · rw [if_neg h]
      simp only [segments, List.map_cons]
      exact (List.prefix_cons_inj _).mpr (List.nil_prefix)

/-- The `add_segm` calls of `load_tail` follow the table, entry by entry. -/
theorem load_tail_segments_prefix (host : Host) (memory : List MEMARRAY) (hdr : nds_hdr)
    (calls : List Call) (inf : Inf) (v : Locals) (hcalls : segments calls = []) :
    segments (load_tail host memory hdr calls inf v).calls <+:
      memory.map (fun m => (m.start, m.end_)) := by
  unfold load_tail
  by_cases h1 : find_mem_block memory v.startEA v.endEA = false
  · simp only [if_pos h1, hcalls]
    exact List.nil_prefix
  · by_cases h2 : (create_segments host memory []).2 = false
    · simp only [if_neg h1, if_pos h2, segments_append, hcalls]
      simpa [segments] using segments_create_segments_prefix host memory []
    · simp only [if_neg h1, if_neg h2, segments_append, segments_annotations, hcalls]
      simpa [segments] using segments_create_segments_prefix host memory []


/-- A run of `load_tail` that returns has copied exactly the range of its
locals, from their file offset. -/
theorem load_tail_returned_copies (host : Host) (memory : List MEMARRAY) (hdr : nds_hdr)
    (calls : List Call) (inf : Inf) (v : Locals)
    (hret : (load_tail host memory hdr calls inf v).exit = Exit.returned) :
    copies (load_tail host memory hdr calls inf v).calls =
      copies calls ++ [(v.offset, v.startEA, v.endEA)] := by
  unfold load_tail at hret ⊢
  by_cases h1 : find_mem_block memory v.startEA v.endEA = false
  · rw [if_pos h1] at hret
    exact absurd hret (fun h => by cases h)
  · by_cases h2 : (create_segments host memory []).2 = false
    · rw [if_neg h1, if_pos h2] at hret
      exact absurd hret (fun h => by cases h)
    · simp only [if_neg h1, if_neg h2, copies_append, copies_annotations,
        copies_create_segments, List.append_nil]
      simp [copies]


/-! ## load_file: the two executables -/

theorem load_file_arm9 (host : Host) (memory : List MEMARRAY) (hdr : nds_hdr) (filesize : Nat)
    (answer : Int) (hcancel : answer ≠ -1) (hyes : answer ≠ 0) :
    load_file host memory hdr filesize answer =
      if filesize < hdr.arm9_rom_offset.val + hdr.arm9_size.val then
        ⟨Exit.loader_failure Failure.FileTooShort, [Call.set_processor_type "ARM"],
          ⟨some hdr.arm9_entry_address.val, some hdr.arm9_entry_address.val, none⟩,
          some ⟨hdr.arm9_ram_address.val,
            (hdr.arm9_ram_address.val + hdr.arm9_size.val) % 4294967296,
            hdr.arm9_rom_offset.val, true⟩, none, none⟩
      else
        load_tail host memory hdr [Call.set_processor_type "ARM"]
          ⟨some hdr.arm9_entry_address.val, some hdr.arm9_entry_address.val, none⟩
          ⟨hdr.arm9_ram_address.val,
            (hdr.arm9_ram_address.val + hdr.arm9_size.val) % 4294967296,
            hdr.arm9_rom_offset.val, true⟩ := by
  unfold load_file
  rw [if_neg hcancel, if_pos hyes]

theorem load_file_arm7 (host : Host) (memory : List MEMARRAY) (hdr : nds_hdr) (filesize : Nat) :
    load_file host memory hdr filesize 0 =
      if filesize < hdr.arm7_rom_offset.val + hdr.arm7_size.val then
        ⟨Exit.loader_failure Failure.FileTooShort, [Call.set_processor_type "ARM710A"],
          ⟨some hdr.arm7_entry_address.val, some hdr.arm7_entry_address.val, none⟩,
          some ⟨hdr.arm7_ram_address.val,
            (hdr.arm7_ram_address.val + hdr.arm7_size.val) % 4294967296,
            hdr.arm7_rom_offset.val, false⟩, none, none⟩
      else
        load_tail host memory hdr [Call.set_processor_type "ARM710A"]
          ⟨some hdr.arm7_entry_address.val, some hdr.arm7_entry_address.val, none⟩
          ⟨hdr.arm7_ram_address.val,
            (hdr.arm7_ram_address.val + hdr.arm7_size.val) % 4294967296,
            hdr.arm7_rom_offset.val, false⟩ := by
  unfold load_file
  rw [if_neg (by decide), if_neg (by simp)]

theorem load_file_locals (host : Host) (memory : List MEMARRAY) (hdr : nds_hdr) (filesize : Nat)
    (answer : Int) (hcancel : answer ≠ -1) :
    (load_file host memory hdr filesize answer).locals =
      some (if answer ≠ 0 then
          ⟨hdr.arm9_ram_address.val,
            (hdr.arm9_ram_address.val + hdr.arm9_size.val) % 4294967296,
            hdr.arm9_rom_offset.val, true⟩
        else
          ⟨hdr.arm7_ram_address.val,
            (hdr.arm7_ram_address.val + hdr.arm7_size.val) % 4294967296,
            hdr.arm7_rom_offset.val, false⟩) := by
  by_cases hyes : answer ≠ 0
  · rw [load_file_arm9 host memory hdr filesize answer hcancel hyes, if_pos hyes]
    split
    · rfl
    · exact (load_tail_fields _ _ _ _ _ _).1
  · have h0 : answer = 0 := by simpa using hyes
    subst h0
    rw [load_file_arm7, if_neg hyes]
    split
    · rfl
    · exact (load_tail_fields _ _ _ _ _ _).1

theorem load_file_start_ip (host : Host) (memory : List MEMARRAY) (hdr : nds_hdr)
    (filesize : Nat) (answer : Int) (hcancel : answer ≠ -1) :
    (load_file host memory hdr filesize answer).inf.start_ip =
      some (if answer ≠ 0 then hdr.arm9_entry_address.val else hdr.arm7_entry_address.val) ∧
    ((load_file host memory hdr filesize answer).exit = Exit.returned →
      (load_file host memory hdr filesize answer).entry_point =
        some (if answer ≠ 0 then hdr.arm9_entry_address.val
          else hdr.arm7_entry_address.val)) := by
  by_cases hyes : answer ≠ 0
  · rw [load_file_arm9 host memory hdr filesize answer hcancel hyes, if_pos hyes]
    split
    · simp
    · exact load_tail_start_ip host memory hdr _ _ _ rfl
  · have h0 : answer = 0 := by simpa using hyes
    subst h0
    rw [load_file_arm7, if_neg hyes]
    split
    · simp
    · exact load_tail_start_ip host memory hdr _ _ _ rfl

theorem load_file_plan_eq (host : Host) (memory : List MEMARRAY) (hdr : nds_hdr)
    (filesize : Nat) (answer : Int) (hcancel : answer ≠ -1) :
    (load_file host memory hdr filesize answer).plan =
      some (if answer ≠ 0 then
          ⟨hdr.arm9_ram_address.val,
            (hdr.arm9_ram_address.val + hdr.arm9_size.val) % 4294967296,
            hdr.arm9_rom_offset.val, hdr.arm9_entry_address.val⟩
        else
          ⟨hdr.arm7_ram_address.val,
            (hdr.arm7_ram_address.val + hdr.arm7_size.val) % 4294967296,
            hdr.arm7_rom_offset.val, hdr.arm7_entry_address.val⟩) := by
  unfold Run.plan
  rw [load_file_locals host memory hdr filesize answer hcancel,
    (load_file_start_ip host memory hdr filesize answer hcancel).1]
  by_cases hyes : answer ≠ 0
  · simp [hyes]
  · simp [hyes]

/-- The outcome of the sanity check and of the RAM block check of a run that
chose an executable. -/
theorem load_file_checks (host : Host) (memory : List MEMARRAY) (hdr : nds_hdr)
    (filesize : Nat) (answer : Int) (v : Locals)
    (hv : (load_file host memory hdr filesize answer).locals = some v) :
    ((load_file host memory hdr filesize answer).exit = Exit.loader_failure Failure.FileTooShort ↔
      filesize < v.offset + (if v.ARM9 = true then hdr.arm9_size.val else hdr.arm7_size.val)) ∧
    ((load_file host memory hdr filesize answer).exit ≠ Exit.loader_failure Failure.FileTooShort →
      load_file host memory hdr filesize answer =
        load_tail host memory hdr
          [Call.set_processor_type (if v.ARM9 = true then "ARM" else "ARM710A")]
          ⟨some (if v.ARM9 = true then hdr.arm9_entry_address.val
              else hdr.arm7_entry_address.val),
            some (if v.ARM9 = true then hdr.arm9_entry_address.val
              else hdr.arm7_entry_address.val), none⟩ v) := by
  have hcancel : answer ≠ -1 := by
    intro h
    rw [h] at hv
    simp [load_file] at hv
  have hl := load_file_locals host memory hdr filesize answer hcancel
  rw [hv] at hl
  have hveq := Option.some.inj hl
  by_cases hyes : answer ≠ 0
  · rw [if_pos hyes] at hveq
    subst hveq
    rw [load_file_arm9 host memory hdr filesize answer hcancel hyes]
    by_cases hs : filesize < hdr.arm9_rom_offset.val + hdr.arm9_size.val
    · simp [hs]
    · simp only [if_neg hs, if_true]
      exact ⟨⟨fun h => absurd h (load_tail_fields _ _ _ _ _ _).2.2.2.1, fun h => absurd h hs⟩,
        fun _ => trivial⟩
  · rw [if_neg hyes] at hveq
    have h0 : answer = 0 := by simpa using hyes
    subst h0
    subst hveq
    rw [load_file_arm7]
    by_cases hs : filesize < hdr.arm7_rom_offset.val + hdr.arm7_size.val
    · simp [hs]
    · simp only [if_neg hs, Bool.false_eq_true, if_false]
      exact ⟨⟨fun h => absurd h (load_tail_fields _ _ _ _ _ _).2.2.2.1, fun h => absurd h hs⟩,
        fun _ => trivial⟩


/-- How `load_tail` ends, its locals, its segments and its copies depend
neither on the header nor on what `inf` held before. -/
theorem load_tail_header_irrelevant (host : Host) (memory : List MEMARRAY) (hdr hdr2 : nds_hdr)
    (calls : List Call) (inf inf2 : Inf) (v : Locals) :
    (load_tail host memory hdr2 calls inf2 v).exit = (load_tail host memory hdr calls inf v).exit ∧
    (load_tail host memory hdr2 calls inf2 v).locals =
      (load_tail host memory hdr calls inf v).locals ∧
    (load_tail host memory hdr2 calls inf2 v).found_mem_block =
      (load_tail host memory hdr calls inf v).found_mem_block ∧
    segments (load_tail host memory hdr2 calls inf2 v).calls =
      segments (load_tail host memory hdr calls inf v).calls ∧
    copies (load_tail host memory hdr2 calls inf2 v).calls =
      copies (load_tail host memory hdr calls inf v).calls := by
  unfold load_tail
  by_cases h1 : find_mem_block memory v.startEA v.endEA = false
  · simp [h1]
  · by_cases h2 : (create_segments host memory []).2 = false
    · simp [h1, h2]
    · simp only [if_neg h1, if_neg h2, segments_append, copies_append, segments_annotations,
        copies_annotations, and_self]

theorem load_file_entry_irrelevant (host : Host) (memory : List MEMARRAY) (hdr : nds_hdr)
    (filesize : Nat) (answer : Int) (e9 e7 : U32) :
    (load_file host memory
        { hdr with arm9_entry_address := e9, arm7_entry_address := e7 } filesize answer).exit =
      (load_file host memory hdr filesize answer).exit ∧
    (load_file host memory
        { hdr with arm9_entry_address := e9, arm7_entry_address := e7 } filesize answer).locals =
      (load_file host memory hdr filesize answer).locals ∧
    (load_file host memory
        { hdr with arm9_entry_address := e9, arm7_entry_address := e7 }
        filesize answer).found_mem_block =
      (load_file host memory hdr filesize answer).found_mem_block ∧
    segments (load_file host memory
        { hdr with arm9_entry_address := e9, arm7_entry_address := e7 } filesize answer).calls =
      segments (load_file host memory hdr filesize answer).calls ∧
    copies (load_file host memory
        { hdr with arm9_entry_address := e9, arm7_entry_address := e7 } filesize answer).calls =
      copies (load_file host memory hdr filesize answer).calls := by
  by_cases hc : answer = -1
  · subst hc
    exact ⟨rfl, rfl, rfl, rfl, rfl⟩
  · by_cases hyes : answer ≠ 0
    · rw [load_file_arm9 host memory hdr filesize answer hc hyes,
        load_file_arm9 host memory _ filesize answer hc hyes]
      by_cases hs : filesize < hdr.arm9_rom_offset.val + hdr.arm9_size.val
      · rw [if_pos hs, if_pos hs]
        exact ⟨rfl, rfl, rfl, rfl, rfl⟩
      · rw [if_neg hs, if_neg hs]
        exact load_tail_header_irrelevant _ _ _ _ _ _ _ _
    · have h0 : answer = 0 := by simpa using hyes
      subst h0
      rw [load_file_arm7 host memory hdr filesize, load_file_arm7 host memory _ filesize]
      by_cases hs : filesize < hdr.arm7_rom_offset.val + hdr.arm7_size.val
      · rw [if_pos hs, if_pos hs]
        exact ⟨rfl, rfl, rfl, rfl, rfl⟩
      · rw [if_neg hs, if_neg hs]
        exact load_tail_header_irrelevant _ _ _ _ _ _ _ _


theorem load_file_returned_copies (host : Host) (memory : List MEMARRAY) (hdr : nds_hdr)
    (filesize : Nat) (answer : Int) (v : Locals)
    (hv : (load_file host memory hdr filesize answer).locals = some v)
    (hret : (load_file host memory hdr filesize answer).exit = Exit.returned) :
    copies (load_file host memory hdr filesize answer).calls =
      [(v.offset, v.startEA, v.endEA)] := by
  have hchk := load_file_checks host memory hdr filesize answer v hv
  have hnot : (load_file host memory hdr filesize answer).exit ≠
      Exit.loader_failure Failure.FileTooShort := by
    rw [hret]
    decide
  have hrun := hchk.2 hnot
  rw [hrun] at hret ⊢
  rw [load_tail_returned_copies _ _ _ _ _ _ hret]
  rfl

theorem load_file_segments_prefix (host : Host) (memory : List MEMARRAY) (hdr : nds_hdr)
    (filesize : Nat) (answer : Int) :
    segments (load_file host memory hdr filesize answer).calls <+:
      memory.map (fun m => (m.start, m.end_)) := by
  by_cases hc : answer = -1
  · subst hc
    exact List.nil_prefix
  · by_cases hyes : answer ≠ 0
    · rw [load_file_arm9 host memory hdr filesize answer hc hyes]
      split
      · exact List.nil_prefix
      · exact load_tail_segments_prefix _ _ _ _ _ _ rfl
    · have h0 : answer = 0 := by simpa using hyes
      subst h0
      rw [load_file_arm7 host memory hdr filesize]
      split
      · exact List.nil_prefix
      · exact load_tail_segments_prefix _ _ _ _ _ _ rfl


/-! ## load_file: plan, failures and segments -/

/-- C5. For every header, the load plan of load_file for the ARM9 executable
(answer yes) is startEA = arm9_ram_address, endEA = arm9_ram_address +
arm9_size in 32-bit unsigned arithmetic (the plain sum whenever it fits 32
bits), offset = arm9_rom_offset, entryPoint = arm9_entry_address, and for the
ARM7 executable (answer no) the same with the arm7 members; a run that
returns has set entry_point to that entry address and copied exactly that
range from that offset; a header that differs in the members of the other
executable only has the same plan.  For
arm9_rom_offset = 0x4000, arm9_ram_address = 0x02000000, arm9_size = 0x10000,
arm9_entry_address = 0x02004000 and a file of at least 0x14000 bytes the
ARM9 plan is startEA = 0x02000000, endEA = 0x02010000, offset = 0x4000,
entryPoint = 0x02004000, and the RAM block check against the window
[0x02000000, 0x023FFFFF] succeeds. -/
theorem load_plan_selects_variant (host : Host) (memory : List MEMARRAY) (hdr : nds_hdr)
    (filesize : Nat) (answer : Int) (hcancel : answer ≠ -1) :
    (answer ≠ 0 →
      (load_file host memory hdr filesize answer).plan =
        some ⟨hdr.arm9_ram_address.val,
          (hdr.arm9_ram_address.val + hdr.arm9_size.val) % 4294967296,
          hdr.arm9_rom_offset.val, hdr.arm9_entry_address.val⟩) ∧
    (answer = 0 →
      (load_file host memory hdr filesize answer).plan =
        some ⟨hdr.arm7_ram_address.val,
          (hdr.arm7_ram_address.val + hdr.arm7_size.val) % 4294967296,
          hdr.arm7_rom_offset.val, hdr.arm7_entry_address.val⟩) ∧
    (answer ≠ 0 → hdr.arm9_ram_address.val + hdr.arm9_size.val < 4294967296 →
      (load_file host memory hdr filesize answer).plan =
        some ⟨hdr.arm9_ram_address.val, hdr.arm9_ram_address.val + hdr.arm9_size.val,
          hdr.arm9_rom_offset.val, hdr.arm9_entry_address.val⟩) ∧
    (answer = 0 → hdr.arm7_ram_address.val + hdr.arm7_size.val < 4294967296 →
      (load_file host memory hdr filesize answer).plan =
        some ⟨hdr.arm7_ram_address.val, hdr.arm7_ram_address.val + hdr.arm7_size.val,
          hdr.arm7_rom_offset.val, hdr.arm7_entry_address.val⟩) ∧
    ((load_file host memory hdr filesize answer).exit = Exit.returned →
      (load_file host memory hdr filesize answer).entry_point =
        some (if answer ≠ 0 then hdr.arm9_entry_address.val else hdr.arm7_entry_address.val) ∧
      copies (load_file host memory hdr filesize answer).calls =
        [if answer ≠ 0 then
            (hdr.arm9_rom_offset.val, hdr.arm9_ram_address.val,
              (hdr.arm9_ram_address.val + hdr.arm9_size.val) % 4294967296)
          else
            (hdr.arm7_rom_offset.val, hdr.arm7_ram_address.val,
              (hdr.arm7_ram_address.val + hdr.arm7_size.val) % 4294967296)]) ∧
    (∀ hdr2 : nds_hdr, answer ≠ 0 →
      hdr2.arm9_ram_address = hdr.arm9_ram_address → hdr2.arm9_size = hdr.arm9_size →
      hdr2.arm9_rom_offset = hdr.arm9_rom_offset →
      hdr2.arm9_entry_address = hdr.arm9_entry_address →
      (load_file host memory hdr2 filesize answer).plan =
        (load_file host memory hdr filesize answer).plan) ∧
    (∀ hdr2 : nds_hdr, answer = 0 →
      hdr2.arm7_ram_address = hdr.arm7_ram_address → hdr2.arm7_size = hdr.arm7_size →
      hdr2.arm7_rom_offset = hdr.arm7_rom_offset →
      hdr2.arm7_entry_address = hdr.arm7_entry_address →
      (load_file host memory hdr2 filesize answer).plan =
        (load_file host memory hdr filesize answer).plan) ∧
    (answer ≠ 0 → hdr.arm9_rom_offset = 0x4000 → hdr.arm9_ram_address = 0x02000000 →
      hdr.arm9_size = 0x10000 → hdr.arm9_entry_address = 0x02004000 → 0x14000 ≤ filesize →
      (load_file host memory hdr filesize answer).plan =
        some ⟨0x02000000, 0x02010000, 0x4000, 0x02004000⟩ ∧
      find_mem_block [⟨0x02000000, 0x023FFFFF⟩] 0x02000000 0x02010000 = true ∧
      (load_file host [⟨0x02000000, 0x023FFFFF⟩] hdr filesize answer).found_mem_block =
        some true) := by
  have hplan := fun h => load_file_plan_eq host memory h filesize answer hcancel
  refine ⟨?_, ?_, ?_, ?_, ?_, ?_, ?_, ?_⟩
  · intro hyes
    rw [hplan hdr, if_pos hyes]
  · intro hno
    rw [hplan hdr, if_neg (by simp [hno])]
  · intro hyes hfit
    rw [hplan hdr, if_pos hyes, Nat.mod_eq_of_lt hfit]
  · intro hno hfit
    rw [hplan hdr, if_neg (by simp [hno]), Nat.mod_eq_of_lt hfit]
  · intro hret
    refine ⟨(load_file_start_ip host memory hdr filesize answer hcancel).2 hret, ?_⟩
    rw [load_file_returned_copies host memory hdr filesize answer _
      (load_file_locals host memory hdr filesize answer hcancel) hret]
    by_cases hyes : answer ≠ 0
    · simp only [if_pos hyes]
    · simp only [if_neg hyes]
  · intro hdr2 hyes h1 h2 h3 h4
    rw [hplan hdr, hplan hdr2, if_pos hyes, if_pos hyes, h1, h2, h3, h4]
  · intro hdr2 hno h1 h2 h3 h4
    rw [hplan hdr, hplan hdr2, if_neg (by simp [hno]), if_neg (by simp [hno]), h1, h2, h3, h4]
  · intro hyes h1 h2 h3 h4 hlen
    refine ⟨?_, by decide, ?_⟩
    · rw [hplan hdr, if_pos hyes, h1, h2, h3, h4]
      rfl
    · rw [load_file_arm9 host _ hdr filesize answer hcancel hyes, h1, h2, h3]
      have hs : ¬ filesize < (0x4000 : U32).val + (0x10000 : U32).val := by
        have : (0x4000 : U32).val + (0x10000 : U32).val = 0x14000 := by decide
        omega
      rw [if_neg hs, (load_tail_fields _ _ _ _ _ _).2.2.1]
      rfl

/-- The end-to-end scenario: the ARM9 plan of the scenario header, and the
memory block found for it. -/
theorem load_plan_selects_variant_witness :
    (1 : Int) ≠ -1 ∧
    (load_file plain_host scenario_memory scenario_hdr 0x14000 1).plan =
      some ⟨0x02000000, 0x02010000, 0x4000, 0x02004000⟩ ∧
    (load_file plain_host scenario_memory scenario_hdr 0x14000 1).found_mem_block = some true :=
  ⟨by decide,
    ((load_plan_selects_variant plain_host scenario_memory scenario_hdr 0x14000 1
      (by decide)).2.2.2.2.2.2.2 (by decide) (by decide) (by decide) (by decide) (by decide)
      (by decide)).1,
    ((load_plan_selects_variant plain_host scenario_memory scenario_hdr 0x14000 1
      (by decide)).2.2.2.2.2.2.2 (by decide) (by decide) (by decide) (by decide) (by decide)
      (by decide)).2.2⟩

/-- C6. For every header and file length: when the file is shorter than
rom_offset + size of the chosen executable (the sum of the two 32-bit
unsigned members), load_file fails with FileTooShort having made no RAM
block check, created no segment and copied no byte; when the file is at
least that long, it does not fail with FileTooShort. -/
theorem file_too_short_fails_first (host : Host) (memory : List MEMARRAY) (hdr : nds_hdr)
    (filesize : Nat) (answer : Int) (hcancel : answer ≠ -1) :
    (answer ≠ 0 →
      (filesize < hdr.arm9_rom_offset.val + hdr.arm9_size.val →
        (load_file host memory hdr filesize answer).exit =
            Exit.loader_failure Failure.FileTooShort ∧
        (load_file host memory hdr filesize answer).found_mem_block = none ∧
        segments (load_file host memory hdr filesize answer).calls = [] ∧
        copies (load_file host memory hdr filesize answer).calls = [] ∧
        (load_file host memory hdr filesize answer).calls = [Call.set_processor_type "ARM"]) ∧
      (hdr.arm9_rom_offset.val + hdr.arm9_size.val ≤ filesize →
        (load_file host memory hdr filesize answer).exit ≠
          Exit.loader_failure Failure.FileTooShort)) ∧
    (answer = 0 →
      (filesize < hdr.arm7_rom_offset.val + hdr.arm7_size.val →
        (load_file host memory hdr filesize answer).exit =
            Exit.loader_failure Failure.FileTooShort ∧
        (load_file host memory hdr filesize answer).found_mem_block = none ∧
        segments (load_file host memory hdr filesize answer).calls = [] ∧
        copies (load_file host memory hdr filesize answer).calls = [] ∧
        (load_file host memory hdr filesize answer).calls =
          [Call.set_processor_type "ARM710A"]) ∧
      (hdr.arm7_rom_offset.val + hdr.arm7_size.val ≤ filesize →
        (load_file host memory hdr filesize answer).exit ≠
          Exit.loader_failure Failure.FileTooShort)) := by
  constructor
  · intro hyes
    rw [load_file_arm9 host memory hdr filesize answer hcancel hyes]
    constructor
    · intro hs
      rw [if_pos hs]
      exact ⟨rfl, rfl, rfl, rfl, rfl⟩
    · intro hs
      rw [if_neg (by omega)]
      exact (load_tail_fields _ _ _ _ _ _).2.2.2.1
  · intro hno
    subst hno
    rw [load_file_arm7]
    constructor
    · intro hs
      rw [if_pos hs]
      exact ⟨rfl, rfl, rfl, rfl, rfl⟩
    · intro hs
      rw [if_neg (by omega)]
      exact (load_tail_fields _ _ _ _ _ _).2.2.2.1

/-- One byte short of rom_offset + size, the scenario header fails the sanity
check before the RAM block check. -/
theorem file_too_short_fails_first_witness :
    ((1 : Int) ≠ -1 ∧ (1 : Int) ≠ 0 ∧
      0x13FFF < scenario_hdr.arm9_rom_offset.val + scenario_hdr.arm9_size.val) ∧
    (load_file plain_host scenario_memory scenario_hdr 0x13FFF 1).exit =
      Exit.loader_failure Failure.FileTooShort ∧
    (load_file plain_host scenario_memory scenario_hdr 0x13FFF 1).found_mem_block = none :=
  ⟨⟨by decide, by decide, by decide⟩,
    (((file_too_short_fails_first plain_host scenario_memory scenario_hdr 0x13FFF 1
      (by decide)).1 (by decide)).1 (by decide)).1,
    (((file_too_short_fails_first plain_host scenario_memory scenario_hdr 0x13FFF 1
      (by decide)).1 (by decide)).1 (by decide)).2.1⟩

/-- C7. For every table of memory windows and every candidate range, the RAM
block check of load_file succeeds exactly when some window w of the table
has startEA >= w.start or endEA <= w.end; it fails for the empty table; and
a run of load_file that passed the sanity check fails with OutOfRange exactly
when no window passes that test. -/
theorem legality_iff_some_window (host : Host) (memory : List MEMARRAY) (hdr : nds_hdr)
    (filesize : Nat) (answer : Int) (v : Locals)
    (hv : (load_file host memory hdr filesize answer).locals = some v) :
    (∀ startEA endEA : Nat, find_mem_block memory startEA endEA = true ↔
      ∃ w ∈ memory, startEA ≥ w.start ∨ endEA ≤ w.end_) ∧
    (∀ startEA endEA : Nat, find_mem_block [] startEA endEA = false) ∧
    ((load_file host memory hdr filesize answer).exit ≠
        Exit.loader_failure Failure.FileTooShort →
      ((load_file host memory hdr filesize answer).found_mem_block = some true ↔
        ∃ w ∈ memory, v.startEA ≥ w.start ∨ v.endEA ≤ w.end_) ∧
      ((load_file host memory hdr filesize answer).exit =
          Exit.loader_failure Failure.OutOfRange ↔
        ¬ ∃ w ∈ memory, v.startEA ≥ w.start ∨ v.endEA ≤ w.end_)) ∧
    ((¬ ∃ w ∈ memory, v.startEA ≥ w.start ∨ v.endEA ≤ w.end_) →
      (load_file host memory hdr filesize answer).exit =
          Exit.loader_failure Failure.FileTooShort ∨
      (load_file host memory hdr filesize answer).exit =
          Exit.loader_failure Failure.OutOfRange) := by
  have hiff := find_mem_block_iff memory v.startEA v.endEA
  have hchk := load_file_checks host memory hdr filesize answer v hv
  have hreach : (load_file host memory hdr filesize answer).exit ≠
        Exit.loader_failure Failure.FileTooShort →
      ((load_file host memory hdr filesize answer).found_mem_block = some true ↔
        ∃ w ∈ memory, v.startEA ≥ w.start ∨ v.endEA ≤ w.end_) ∧
      ((load_file host memory hdr filesize answer).exit =
          Exit.loader_failure Failure.OutOfRange ↔
        ¬ ∃ w ∈ memory, v.startEA ≥ w.start ∨ v.endEA ≤ w.end_) := by
    intro hlong
    rw [hchk.2 hlong, (load_tail_fields _ _ _ _ _ _).2.2.1, (load_tail_fields _ _ _ _ _ _).2.2.2.2,
      ← hiff]
    constructor
    · simp
    · simp
  refine ⟨fun s e => find_mem_block_iff memory s e, fun _ _ => rfl, hreach, ?_⟩
  intro hnone
  by_cases hlong : (load_file host memory hdr filesize answer).exit =
      Exit.loader_failure Failure.FileTooShort
  · exact Or.inl hlong
  · exact Or.inr ((hreach hlong).2.mpr hnone)

/-- With an empty table of memory windows the scenario header fails the RAM block
check. -/
theorem legality_iff_some_window_witness :
    (load_file plain_host [] scenario_hdr 0x14000 1).locals =
      some ⟨0x02000000, 0x02010000, 0x4000, true⟩ ∧
    (load_file plain_host [] scenario_hdr 0x14000 1).exit =
      Exit.loader_failure Failure.OutOfRange :=
  have h := legality_iff_some_window plain_host [] scenario_hdr 0x14000 1
    ⟨0x02000000, 0x02010000, 0x4000, true⟩ (by decide)
  ⟨by decide, (h.2.2.1 (by decide)).2.mpr (by simp)⟩


/-- C8 (the code at the failing input). With the memory window
[0x02000000, 0x023FFFFF] as the whole table and an ARM9 executable of 0x10000
bytes to be loaded at 0x10000000, the range [0x10000000, 0x10010000) lies
above the window and meets no address of it; load_file nevertheless finds a
memory block, does not fail, and copies the file bytes to that range.  The
same holds for every table: a range that starts at or above the start of
some window passes the RAM block check, wherever it lies. -/
theorem range_outside_every_window_is_loaded :
    (load_file plain_host scenario_memory far_hdr 0x14000 1).locals =
      some ⟨0x10000000, 0x10010000, 0x4000, true⟩ ∧
    (∀ w ∈ scenario_memory, w.end_ < 0x10000000) ∧
    (load_file plain_host scenario_memory far_hdr 0x14000 1).found_mem_block = some true ∧
    (load_file plain_host scenario_memory far_hdr 0x14000 1).exit = Exit.returned ∧
    copies (load_file plain_host scenario_memory far_hdr 0x14000 1).calls =
      [(0x4000, 0x10000000, 0x10010000)] ∧
    (∀ (memory : List MEMARRAY) (w : MEMARRAY) (startEA endEA : Nat),
      w ∈ memory → w.start ≤ startEA → find_mem_block memory startEA endEA = true) :=
  ⟨by decide, by decide, by decide, by decide, by decide,
    fun memory w startEA endEA hw hs =>
      (find_mem_block_iff memory startEA endEA).mpr ⟨w, hw, Or.inl hs⟩⟩

/-- C9. For every table of memory windows and every run of load_file whose
file is long enough for the chosen executable and whose range satisfies
w.start <= startEA and endEA <= w.end for a window w of the table, the RAM
block check succeeds and the run fails neither with FileTooShort nor with
OutOfRange; the segments it asks the host for follow the table, entry by
entry; with a host that accepts every segment the run returns, and the
segments it creates are the whole table in table order, one (start, end)
per entry, so w's bounds are among them and the list does not depend on
which window matched. -/
theorem contained_range_resolves (host : Host) (memory : List MEMARRAY) (hdr : nds_hdr)
    (filesize : Nat) (answer : Int) (v : Locals) (w : MEMARRAY)
    (hv : (load_file host memory hdr filesize answer).locals = some v)
    (hlong : v.offset + (if v.ARM9 = true then hdr.arm9_size.val else hdr.arm7_size.val) ≤
      filesize)
    (hw : w ∈ memory) (hstart : w.start ≤ v.startEA) (_hend : v.endEA ≤ w.end_) :
    (load_file host memory hdr filesize answer).found_mem_block = some true ∧
    (load_file host memory hdr filesize answer).exit ≠ Exit.loader_failure Failure.FileTooShort ∧
    (load_file host memory hdr filesize answer).exit ≠ Exit.loader_failure Failure.OutOfRange ∧
    segments (load_file host memory hdr filesize answer).calls <+:
      memory.map (fun m => (m.start, m.end_)) ∧
    ((∀ c m, host.add_segm c m = true) →
      (load_file host memory hdr filesize answer).exit = Exit.returned ∧
      segments (load_file host memory hdr filesize answer).calls =
        memory.map (fun m => (m.start, m.end_)) ∧
      (w.start, w.end_) ∈ segments (load_file host memory hdr filesize answer).calls ∧
      copies (load_file host memory hdr filesize answer).calls =
        [(v.offset, v.startEA, v.endEA)]) := by
  have hchk := load_file_checks host memory hdr filesize answer v hv
  have hnot : (load_file host memory hdr filesize answer).exit ≠
      Exit.loader_failure Failure.FileTooShort := by
    intro h
    have := hchk.1.mp h
    omega
  have hfound : find_mem_block memory v.startEA v.endEA = true :=
    (find_mem_block_iff memory v.startEA v.endEA).mpr ⟨w, hw, Or.inl hstart⟩
  have hrun := hchk.2 hnot
  refine ⟨?_, hnot, ?_, load_file_segments_prefix host memory hdr filesize answer, ?_⟩
  · rw [hrun, (load_tail_fields _ _ _ _ _ _).2.2.1, hfound]
  · rw [hrun, Ne, (load_tail_fields _ _ _ _ _ _).2.2.2.2, hfound]
    simp
  · intro hacc
    have ht := load_tail_accepting host memory hdr
      [Call.set_processor_type (if v.ARM9 = true then "ARM" else "ARM710A")]
      ⟨some (if v.ARM9 = true then hdr.arm9_entry_address.val
          else hdr.arm7_entry_address.val),
        some (if v.ARM9 = true then hdr.arm9_entry_address.val
          else hdr.arm7_entry_address.val), none⟩ v hfound hacc
    rw [hrun]
    have hseg : segments (load_tail host memory hdr
        [Call.set_processor_type (if v.ARM9 = true then "ARM" else "ARM710A")]
        ⟨some (if v.ARM9 = true then hdr.arm9_entry_address.val
            else hdr.arm7_entry_address.val),
          some (if v.ARM9 = true then hdr.arm9_entry_address.val
            else hdr.arm7_entry_address.val), none⟩ v).calls =
        memory.map (fun m => (m.start, m.end_)) := by
      rw [ht.2.1]
      rfl
    refine ⟨ht.1, hseg, ?_, ?_⟩
    · rw [hseg]
      exact List.mem_map.mpr ⟨w, hw, rfl⟩
    · rw [ht.2.2]
      rfl

/-- With two memory windows, the scenario range lying in the second, the run
returns and both segments are created, in table order. -/
theorem contained_range_resolves_witness :
    (load_file plain_host two_windows scenario_hdr 0x14000 1).locals =
      some ⟨0x02000000, 0x02010000, 0x4000, true⟩ ∧
    (load_file plain_host two_windows scenario_hdr 0x14000 1).exit = Exit.returned ∧
    segments (load_file plain_host two_windows scenario_hdr 0x14000 1).calls =
      [(0x037F8000, 0x0380FFFF), (0x02000000, 0x023FFFFF)] :=
  have h := contained_range_resolves plain_host two_windows scenario_hdr 0x14000 1
    ⟨0x02000000, 0x02010000, 0x4000, true⟩ ⟨0x02000000, 0x023FFFFF⟩
    (by decide) (by decide) (by decide) (by decide) (by decide)
  ⟨by decide, (h.2.2.2.2 (fun _ _ => rfl)).1, (h.2.2.2.2 (fun _ _ => rfl)).2.1⟩

/-- C10. For every header, executable, file length and table of memory
windows, replacing the entry addresses of the header changes neither how
load_file ends (return, or which failure) nor startEA, endEA, offset, the
outcome of the RAM block check, the segments created or the bytes copied;
so an entry point outside [startEA, endEA) raises no failure, and the entry
point of the plan is the entry address of the chosen executable. -/
theorem entry_address_irrelevant (host : Host) (memory : List MEMARRAY) (hdr : nds_hdr)
    (filesize : Nat) (answer : Int) (e9 e7 : U32) :
    (load_file host memory
        { hdr with arm9_entry_address := e9, arm7_entry_address := e7 } filesize answer).exit =
      (load_file host memory hdr filesize answer).exit ∧
    (load_file host memory
        { hdr with arm9_entry_address := e9, arm7_entry_address := e7 } filesize answer).locals =
      (load_file host memory hdr filesize answer).locals ∧
    (load_file host memory
        { hdr with arm9_entry_address := e9, arm7_entry_address := e7 }
        filesize answer).found_mem_block =
      (load_file host memory hdr filesize answer).found_mem_block ∧
    segments (load_file host memory
        { hdr with arm9_entry_address := e9, arm7_entry_address := e7 } filesize answer).calls =
      segments (load_file host memory hdr filesize answer).calls ∧
    copies (load_file host memory
        { hdr with arm9_entry_address := e9, arm7_entry_address := e7 } filesize answer).calls =
      copies (load_file host memory hdr filesize answer).calls ∧
    (answer ≠ -1 →
      (load_file host memory
          { hdr with arm9_entry_address := e9, arm7_entry_address := e7 }
          filesize answer).inf.start_ip =
        some (if answer ≠ 0 then e9.val else e7.val) ∧
      ((load_file host memory
          { hdr with arm9_entry_address := e9, arm7_entry_address := e7 }
          filesize answer).exit = Exit.returned →
        (load_file host memory
            { hdr with arm9_entry_address := e9, arm7_entry_address := e7 }
            filesize answer).entry_point =
          some (if answer ≠ 0 then e9.val else e7.val))) := by
  have hip : answer ≠ -1 → _ := fun hc =>
    load_file_start_ip host memory
      { hdr with arm9_entry_address := e9, arm7_entry_address := e7 } filesize answer hc
  have hsame : _ ∧ _ ∧ _ ∧ _ ∧ _ :=
    load_file_entry_irrelevant host memory hdr filesize answer e9 e7
  exact ⟨hsame.1, hsame.2.1, hsame.2.2.1, hsame.2.2.2.1, hsame.2.2.2.2, hip⟩

/-- The scenario header with its ARM9 entry address moved to 0x0A000000, outside
the load range, is loaded as before, and that address is the entry point. -/
theorem entry_address_irrelevant_witness :
    (load_file plain_host scenario_memory
        { scenario_hdr with arm9_entry_address := 0x0A000000, arm7_entry_address := 0 }
        0x14000 1).exit = Exit.returned ∧
    (load_file plain_host scenario_memory scenario_hdr 0x14000 1).exit = Exit.returned ∧
    (load_file plain_host scenario_memory
        { scenario_hdr with arm9_entry_address := 0x0A000000, arm7_entry_address := 0 }
        0x14000 1).inf.start_ip = some 0x0A000000 :=
  have h := entry_address_irrelevant plain_host scenario_memory scenario_hdr 0x14000 1
    0x0A000000 0
  ⟨h.1.trans (by decide), by decide, (h.2.2.2.2.2 (by decide)).1⟩


end NdsLoader
